import Mathlib

/-!
Verification of the chunked audio-transcription pipeline and its crash-safe
session store (OpenWhisper).  The definitions below are a shallow embedding of
`services/database.py`, `services/meeting_storage.py` and
`services/meeting_controller.py`; theorems settle the frozen claims about them.
-/

set_option maxHeartbeats 1000000

/-! ## Python string primitives used by the source -/

/-- The characters Python `str.strip()` removes: CPython's `str.isspace()`
set, i.e. 0x09–0x0D, the separators 0x1C–0x1F, space, NEL (0x85), NBSP
(0xA0), Ogham space mark (0x1680), the Unicode space characters
0x2000–0x200A, line/paragraph separators (0x2028/0x2029), narrow NBSP
(0x202F), medium mathematical space (0x205F) and ideographic space
(0x3000). -/
def isPySpace (c : Char) : Bool :=
  let n := c.toNat
  (0x09 ≤ n && n ≤ 0x0d) || (0x1c ≤ n && n ≤ 0x1f) || n == 0x20 ||
  n == 0x85 || n == 0xa0 || n == 0x1680 || (0x2000 ≤ n && n ≤ 0x200a) ||
  n == 0x2028 || n == 0x2029 || n == 0x202f || n == 0x205f || n == 0x3000

/-- Strip leading and trailing whitespace from a character list. -/
def stripChars (l : List Char) : List Char :=
  ((l.dropWhile isPySpace).reverse.dropWhile isPySpace).reverse

/-- Python `str.strip()` with no arguments. -/
def pyStrip (s : String) : String := ⟨stripChars s.data⟩

/-- Sanity check of the non-ASCII cases: `strip()` removes a leading
no-break space and a leading file separator, and `pyStrip` agrees. -/
lemma pyStrip_strips_nbsp_and_fs :
    pyStrip " a" = "a" ∧ pyStrip "\u001Ca" = "a" ∧ pyStrip "hello" = "hello" := by
  refine ⟨?_, ?_, ?_⟩ <;> decide

/-- Python `sep.join(...)` for the single-space separator, as used by the
spec's phrase "concatenation of chunk texts with single-space separators". -/
def pyJoinSp : List String → String
  | [] => ""
  | [t] => t
  | t :: t2 :: rest => t ++ " " ++ pyJoinSp (t2 :: rest)

/-- Python `str.startswith` (on the underlying character list). -/
def pyStartsWith (s pre : String) : Bool := pre.data.isPrefixOf s.data

/-- Python `str.endswith` (on the underlying character list). -/
def pyEndsWith (s post : String) : Bool := post.data.isSuffixOf s.data

/-- Python substring containment (the `in` operator on strings). -/
def pyContains : List Char → List Char → Bool
  | s, [] => List.isPrefixOf s []
  | s, c :: rest => List.isPrefixOf s (c :: rest) || pyContains s rest

/-! ## Data model: the rows of `meetings`, `meeting_chunks`, `meeting_insights`
(from SCHEMA_SQL in `services/database.py`) -/

structure MeetingRow where
  id : String
  title : String
  start_time : String
  end_time : Option String
  duration_seconds : ℚ
  transcript : String
  status : String
  audio_file : Option String
deriving DecidableEq, Repr

structure ChunkRow where
  meeting_id : String
  chunk_index : ℕ
  text : String
  timestamp : String
  audio_file : Option String
deriving DecidableEq, Repr

structure InsightRow where
  meeting_id : String
  insight_type : String
  content : String
  custom_prompt : Option String
  generated_at : String
deriving DecidableEq, Repr

/-- The durable state owned by the store (the three meeting-related tables). -/
structure DB where
  meetings : List MeetingRow
  chunks : List ChunkRow
  insights : List InsightRow
deriving DecidableEq, Repr

namespace DatabaseManager

/-- Transcript growth rule of `add_meeting_chunk`:
`new_transcript = (current_transcript + ' ' + text).strip() if current_transcript else text`. -/
def extendTranscript (current_transcript text : String) : String :=
  if current_transcript ≠ "" then pyStrip (current_transcript ++ " " ++ text)
  else text

/-- SELECT transcript FROM meetings WHERE id = ? (first row, as `fetchone`). -/
def findMeeting (db : DB) (meeting_id : String) : Option MeetingRow :=
  db.meetings.find? (fun m => m.id == meeting_id)

/-- Transcript of a stored meeting, if present. -/
def transcript_of (db : DB) (meeting_id : String) : Option String :=
  (findMeeting db meeting_id).map (fun m => m.transcript)

/-- The UPDATE half of `add_meeting_chunk`: read the parent row's transcript,
extend it, and write it back (`if row:` skips the write when the id is absent). -/
def updateTranscriptStmt (db : DB) (meeting_id text : String) : DB :=
  match findMeeting db meeting_id with
  | none => db
  | some row =>
      let new_transcript := extendTranscript row.transcript text
      { db with meetings := db.meetings.map (fun m =>
          if m.id == meeting_id then { m with transcript := new_transcript } else m) }

/-- The INSERT half of `add_meeting_chunk`. -/
def insertChunkStmt (db : DB) (meeting_id : String) (chunk_index : ℕ)
    (text timestamp : String) (audio_file : Option String) : DB :=
  { db with chunks := db.chunks ++ [⟨meeting_id, chunk_index, text, timestamp, audio_file⟩] }

/-- Statements executed by `add_meeting_chunk` inside one connection. -/
inductive Stmt where
  | insertChunk (meeting_id : String) (chunk_index : ℕ)
      (text timestamp : String) (audio_file : Option String)
  | updateTranscript (meeting_id text : String)
  | commit
deriving DecidableEq, Repr

/-- Effect of one statement on the connection's pending (uncommitted) state.
`commit` itself changes nothing here; `runStmts` publishes the pending state. -/
def execStmt : Stmt → DB → DB
  | .insertChunk mid idx text ts afile, db => insertChunkStmt db mid idx text ts afile
  | .updateTranscript mid text, db => updateTranscriptStmt db mid text
  | .commit, db => db

/-- Run a statement list against (committed, pending) state.  `failAt = some k`
means statement `k` raises: `_get_connection` then rolls the connection back,
so the committed state is returned unchanged.  `commit` publishes the pending
state as the new committed state. -/
def runStmts : List Stmt → Option ℕ → DB → DB → DB
  | [], _, committed, _ => committed
  | _ :: _, some 0, committed, _ => committed
  | s :: rest, failAt, committed, pending =>
      let failAt' : Option ℕ := failAt.map (fun k => k - 1)
      let pending' := execStmt s pending
      match s with
      | .commit => runStmts rest failAt' pending' pending'
      | _ => runStmts rest failAt' committed pending'

/-- The statement sequence of `DatabaseManager.add_meeting_chunk`. -/
def addChunkStmts (meeting_id : String) (chunk_index : ℕ)
    (text timestamp : String) (audio_file : Option String) : List Stmt :=
  [Stmt.insertChunk meeting_id chunk_index text timestamp audio_file,
   Stmt.updateTranscript meeting_id text,
   Stmt.commit]

/-- `add_meeting_chunk` with an optional injected failure point. -/
def add_meeting_chunk_tx (db : DB) (meeting_id : String) (chunk_index : ℕ)
    (text timestamp : String) (audio_file : Option String) (failAt : Option ℕ) : DB :=
  runStmts (addChunkStmts meeting_id chunk_index text timestamp audio_file) failAt db db

/-- `DatabaseManager.add_meeting_chunk` (the error-free run). -/
def add_meeting_chunk (db : DB) (meeting_id : String) (chunk_index : ℕ)
    (text timestamp : String) (audio_file : Option String) : DB :=
  add_meeting_chunk_tx db meeting_id chunk_index text timestamp audio_file none

/-- `DatabaseManager.create_meeting`: INSERT a fresh `in_progress` row; a
duplicate primary key makes SQLite raise, leaving the table unchanged. -/
def create_meeting (db : DB) (meeting_id title start_time : String) : DB :=
  if db.meetings.any (fun m => m.id == meeting_id) then db
  else { db with meetings := db.meetings ++
          [⟨meeting_id, title, start_time, none, 0, "", "in_progress", none⟩] }

/-- `DatabaseManager.end_meeting`: UPDATE end_time, duration, status, audio_file
WHERE id = ? (no status guard in the source). -/
def end_meeting (db : DB) (meeting_id end_time : String) (duration_seconds : ℚ)
    (audio_file : Option String) : DB :=
  { db with meetings := db.meetings.map (fun m =>
      if m.id == meeting_id then
        { m with end_time := some end_time, duration_seconds := duration_seconds,
                 status := "completed", audio_file := audio_file }
      else m) }

/-- `DatabaseManager.mark_meeting_interrupted`. -/
def mark_meeting_interrupted (db : DB) (meeting_id end_time : String)
    (duration_seconds : ℚ) : DB :=
  { db with meetings := db.meetings.map (fun m =>
      if m.id == meeting_id then
        { m with end_time := some end_time, duration_seconds := duration_seconds,
                 status := "interrupted" }
      else m) }

/-- `DatabaseManager.get_in_progress_meetings`. -/
def get_in_progress_meetings (db : DB) : List MeetingRow :=
  db.meetings.filter (fun m => m.status == "in_progress")

/-- `DatabaseManager.get_meeting_chunk_count`. -/
def get_meeting_chunk_count (db : DB) (meeting_id : String) : ℕ :=
  (db.chunks.filter (fun c => c.meeting_id == meeting_id)).length

/-- `DatabaseManager.delete_meeting`: DELETE FROM meetings WHERE id = ?;
chunk and insight rows of the deleted meeting go via ON DELETE CASCADE
(foreign keys are enabled in `_get_connection`); returns `rowcount > 0`. -/
def delete_meeting (db : DB) (meeting_id : String) : Bool × DB :=
  let deleted := db.meetings.any (fun m => m.id == meeting_id)
  let meetings' := db.meetings.filter (fun m => !(m.id == meeting_id))
  let chunks' := if deleted then db.chunks.filter (fun c => !(c.meeting_id == meeting_id))
                 else db.chunks
  let insights' := if deleted then db.insights.filter (fun i => !(i.meeting_id == meeting_id))
                   else db.insights
  (deleted, ⟨meetings', chunks', insights'⟩)

/-- `DatabaseManager.update_meeting_title`: UPDATE title WHERE id = ?
(no status guard in the source); returns `rowcount > 0`. -/
def update_meeting_title (db : DB) (meeting_id title : String) : Bool × DB :=
  (db.meetings.any (fun m => m.id == meeting_id),
   { db with meetings := db.meetings.map (fun m =>
       if m.id == meeting_id then { m with title := title } else m) })

end DatabaseManager

/-! ## MeetingStorage (`services/meeting_storage.py`) -/

namespace MeetingStorage

/-- Transient state of `MeetingStorage`: the current meeting id, the store,
and the audio-chunk files written under `audio_folder`. -/
structure State where
  current_meeting_id : Option String
  db : DB
  chunk_files : List String
deriving DecidableEq, Repr

/-- Relative path `<meeting_id[:8]>/chunk_NNNN.wav` of `_save_audio_chunk`
(the zero-padding of the index is immaterial to the claims). -/
def chunkFileName (meeting_id : String) (chunk_index : ℕ) : String :=
  String.mk (meeting_id.data.take 8) ++ "/chunk_" ++ toString chunk_index ++ ".wav"

/-- `MeetingStorage.add_chunk`: refuse when no meeting is active; otherwise
derive the chunk index from the persisted chunk count, optionally write the
audio file, and insert the chunk through `DatabaseManager.add_meeting_chunk`. -/
def add_chunk (st : State) (text : String) (audio_data : Bool) (now : String) :
    Bool × State :=
  match st.current_meeting_id with
  | none => (false, st)
  | some mid =>
      let chunk_index := DatabaseManager.get_meeting_chunk_count st.db mid
      let afile : Option String :=
        if audio_data then some (chunkFileName mid chunk_index) else none
      let files' := match afile with
        | some f => st.chunk_files ++ [f]
        | none => st.chunk_files
      let db' := DatabaseManager.add_meeting_chunk st.db mid chunk_index text now afile
      (true, { st with db := db', chunk_files := files' })

/-- `MeetingStorage._check_interrupted_meetings`: fetch the `in_progress`
rows once, then mark each interrupted with "now" and its persisted duration. -/
def check_interrupted_meetings (db : DB) (now : String) : DB :=
  (DatabaseManager.get_in_progress_meetings db).foldl
    (fun d m => DatabaseManager.mark_meeting_interrupted d m.id now m.duration_seconds) db

end MeetingStorage

/-! ## ChunkTranscriptionWorker (`MeetingTranscriber` in
`services/meeting_controller.py`).  Audio buffers are mono float sample
lists; the engine input of one `_process_audio` call is the (possibly
resampled) concatenated array. -/

/-- Whisper models expect 16kHz audio. -/
def WHISPER_SAMPLE_RATE : ℚ := 16000

/-- Meeting-specific chunk window (seconds). -/
def MEETING_CHUNK_DURATION_SEC : ℚ := 30

abbrev AudioBuf := List ℚ

structure TranscriberCfg where
  sample_rate : ℚ
  chunk_duration_sec : ℚ

/-- Modelled from the spec: `scipy.signal.resample` is an external collaborator;
only the length of its output (the requested `num_samples`) is observable to the
claims, so the sample values are not modelled. -/
def resample (xs : List ℚ) (num : ℕ) : List ℚ :=
  (xs.take num) ++ List.replicate (num - xs.length) 0

/-- `num_samples = int(len(audio_array) * WHISPER_SAMPLE_RATE / self.sample_rate)`. -/
def resampleCount (cfg : TranscriberCfg) (n : ℕ) : ℕ :=
  (⌊(n : ℚ) * WHISPER_SAMPLE_RATE / cfg.sample_rate⌋).toNat

/-- `MeetingTranscriber._process_audio`: concatenate the accumulated buffers,
resample when the capture rate differs from 16 kHz, and invoke the engine once
with the result.  Returns the engine-call input (`none` when the accumulator
list is empty — the guard `if not audio_chunks: return`). -/
def process_audio_chunks (cfg : TranscriberCfg) (audio_chunks : List AudioBuf) :
    Option AudioBuf :=
  if audio_chunks.isEmpty then none
  else
    let audio_array := audio_chunks.flatten
    let audio_array :=
      if cfg.sample_rate ≠ WHISPER_SAMPLE_RATE then
        resample audio_array (resampleCount cfg audio_array.length)
      else audio_array
    some audio_array

/-- `_worker_loop` after `stop()` has been requested, observed at the `while`
condition: with the stop flag set the condition reduces to "queue nonempty", so
each iteration pops a buffer (a nonempty queue never times the `get` out),
accumulates it, and processes only when the window threshold is reached.  When
the queue is empty the loop exits; the `except queue.Empty` flush branch is
unreachable from here because the `while` condition is checked first.
Returns the list of engine-call inputs. -/
def worker_drain (cfg : TranscriberCfg) :
    List AudioBuf → List AudioBuf → ℚ → List AudioBuf
  | [], _, _ => []
  | b :: rest, accumulated_audio, accumulated_duration =>
      let acc' := accumulated_audio ++ [b]
      let dur' := accumulated_duration + (b.length : ℚ) / cfg.sample_rate
      if cfg.chunk_duration_sec ≤ dur' then
        (process_audio_chunks cfg acc').toList ++ worker_drain cfg rest [] 0
      else
        worker_drain cfg rest acc' dur'

/-- `_worker_loop` before `stop()` is requested: the loop condition holds, each
fed buffer is popped and accumulated, and a timed-out `get` does nothing (the
flush branch requires the stop flag).  Returns the final accumulator, its
duration, and the engine-call inputs emitted while consuming the fed buffers. -/
def worker_feed (cfg : TranscriberCfg) :
    List AudioBuf → List AudioBuf → ℚ → (List AudioBuf × ℚ × List AudioBuf)
  | [], accumulated_audio, accumulated_duration =>
      (accumulated_audio, accumulated_duration, [])
  | b :: rest, accumulated_audio, accumulated_duration =>
      let acc' := accumulated_audio ++ [b]
      let dur' := accumulated_duration + (b.length : ℚ) / cfg.sample_rate
      if cfg.chunk_duration_sec ≤ dur' then
        let r := worker_feed cfg rest [] 0
        (r.1, r.2.1, (process_audio_chunks cfg acc').toList ++ r.2.2)
      else
        worker_feed cfg rest acc' dur'

/-! ## RecordingArchiver (`save_complete_recording` / `_rotate_recordings`
in `services/meeting_storage.py`) -/

/-- One file in the recordings folder. -/
structure FileEntry where
  name : String
  mtime : ℚ
deriving DecidableEq, Repr

/-- The filename filter of `_rotate_recordings`:
`filename.startswith('meeting_') and filename.endswith('.wav')`. -/
def isMeetingWav (name : String) : Bool :=
  pyStartsWith name "meeting_" && pyEndsWith name ".wav"

/-- Number of files in a folder that the rotation filter matches. -/
def countMeetingWav (folder : List FileEntry) : ℕ :=
  (folder.filter (fun f => isMeetingWav f.name)).length

/-- The `while len(recordings) >= max_recordings: recordings.pop(0)` loop
(deleting each popped file).  Returns the surviving recordings; the input is
sorted oldest-first.  (With `max_recordings = 0` Python would raise popping an
empty list; the claims assume `max_recordings ≥ 1`, where this models the loop
exactly.) -/
def rotateLoop : List FileEntry → ℕ → List FileEntry
  | [], _ => []
  | r :: rest, max_recordings =>
      if max_recordings ≤ rest.length + 1 then rotateLoop rest max_recordings
      else r :: rest

/-- `MeetingStorage._rotate_recordings`: collect the matching files, sort them
by modification time (oldest first), and delete the oldest until the count is
below `max_recordings`.  Non-matching files are untouched. -/
def rotate_recordings (folder : List FileEntry) (max_recordings : ℕ) : List FileEntry :=
  let recordings := (folder.filter (fun f => isMeetingWav f.name)).mergeSort
    (fun a b => a.mtime ≤ b.mtime)
  folder.filter (fun f => !(isMeetingWav f.name)) ++ rotateLoop recordings max_recordings

/-- Filename `meeting_{timestamp}_{meeting_id[:8]}.wav` of
`save_complete_recording`. -/
def mkRecordingFilename (timestamp meeting_id : String) : String :=
  "meeting_" ++ timestamp ++ "_" ++ String.mk (meeting_id.data.take 8) ++ ".wav"

/-- `MeetingStorage.save_complete_recording` (successful save): rotate first,
then write the new WAV file into the recordings folder. -/
def save_complete_recording (folder : List FileEntry) (max_recordings : ℕ)
    (timestamp meeting_id : String) (mtime : ℚ) : List FileEntry :=
  rotate_recordings folder max_recordings ++
    [⟨mkRecordingFilename timestamp meeting_id, mtime⟩]

/-! ## Schema lifecycle (`_init_database` / `_run_migrations` in
`services/database.py`) -/

/-- Schema version for future migrations. -/
def SCHEMA_VERSION : ℕ := 4

/-- The schema facts the migrations inspect or change: the stored version row,
whether `meetings` exists and has the `audio_file` column, and whether
`meeting_insights` exists and which timestamp column it carries. -/
structure SchemaState where
  version : Option ℕ
  meetings_exists : Bool
  meetings_has_audio_file : Bool
  insights_exists : Bool
  insights_has_created_at : Bool
  insights_has_generated_at : Bool
deriving DecidableEq, Repr

/-- `conn.executescript(SCHEMA_SQL)`: every CREATE uses IF NOT EXISTS; a fresh
`meetings` table has no `audio_file` column and a fresh `meeting_insights`
table carries `generated_at`. -/
def executescript_schema (s : SchemaState) : SchemaState :=
  let s := if s.meetings_exists then s
           else { s with meetings_exists := true, meetings_has_audio_file := false }
  if s.insights_exists then s
  else { s with insights_exists := true,
                insights_has_created_at := false, insights_has_generated_at := true }

/-- `ALTER TABLE meetings ADD COLUMN audio_file`: SQLite raises
"duplicate column name" when the column exists already. -/
def alter_add_audio_file (s : SchemaState) : Except String SchemaState :=
  if s.meetings_has_audio_file then .error "duplicate column name"
  else .ok { s with meetings_has_audio_file := true }

/-- Migration v1→v2 with its `except sqlite3.OperationalError` handler:
a "duplicate column name" message is tolerated, anything else re-raised. -/
def migration_v1_v2 (s : SchemaState) : Except String SchemaState :=
  match alter_add_audio_file s with
  | .ok s' => .ok s'
  | .error e =>
      if pyContains "duplicate column name".data e.data then .ok s else .error e

/-- Migration v2→v3: CREATE TABLE IF NOT EXISTS meeting_insights (the fresh
table carries `generated_at`); never raises. -/
def migration_v2_v3 (s : SchemaState) : SchemaState :=
  if s.insights_exists then s
  else { s with insights_exists := true,
                insights_has_created_at := false, insights_has_generated_at := true }

/-- `PRAGMA table_info(meeting_insights)`: which of the two timestamp columns
are present (an absent table reports no columns). -/
def insights_columns (s : SchemaState) : Bool × Bool :=
  if s.insights_exists then (s.insights_has_created_at, s.insights_has_generated_at)
  else (false, false)

/-- `ALTER TABLE meeting_insights RENAME COLUMN created_at TO generated_at`:
raises unless the table exists with a `created_at` column. -/
def rename_created_at (s : SchemaState) : Except String SchemaState :=
  if s.insights_exists ∧ s.insights_has_created_at then
    .ok { s with insights_has_created_at := false, insights_has_generated_at := true }
  else .error "no such column"

/-- Migration v3→v4: rename only when `created_at` exists and `generated_at`
does not; otherwise log and continue (re-raising only rename errors). -/
def migration_v3_v4 (s : SchemaState) : Except String SchemaState :=
  let cols := insights_columns s
  if cols.1 ∧ ¬ cols.2 then rename_created_at s
  else .ok s

/-- `DatabaseManager._run_migrations`: the three guarded steps in ascending
order, propagating any uncaught error, then `UPDATE schema_version`. -/
def run_migrations (s : SchemaState) (from_version : ℕ) : Except String SchemaState :=
  match (if from_version < 2 then migration_v1_v2 s else .ok s) with
  | .error e => .error e
  | .ok s1 =>
      let s2 := if from_version < 3 then migration_v2_v3 s1 else s1
      match (if from_version < 4 then migration_v3_v4 s2 else .ok s2) with
      | .error e => .error e
      | .ok s3 => .ok { s3 with version := some SCHEMA_VERSION }

/-- `DatabaseManager._init_database`: run the schema script, then set the
version on a fresh database or migrate a stale one. -/
def init_database (s : SchemaState) : Except String SchemaState :=
  match (executescript_schema s).version with
  | none => .ok { executescript_schema s with version := some SCHEMA_VERSION }
  | some v =>
      if v < SCHEMA_VERSION then run_migrations (executescript_schema s) v
      else .ok (executescript_schema s)

/-! ## Claims about the storage guard and the worker -/

/-- C10: with no active meeting, `MeetingStorage.add_chunk` returns `false`
and persists nothing — no chunk row, no transcript change, no audio file;
the state is identical before and after the call. -/
theorem add_chunk_no_active_meeting (st : MeetingStorage.State) (text now : String)
    (audio_data : Bool) (h : st.current_meeting_id = none) :
    MeetingStorage.add_chunk st text audio_data now = (false, st) := by
  simp [MeetingStorage.add_chunk, h]

theorem add_chunk_no_active_meeting_witness :
    MeetingStorage.add_chunk ⟨none, ⟨[], [], []⟩, []⟩ "hello" true "2025-01-01" =
      (false, ⟨none, ⟨[], [], []⟩, []⟩) :=
  add_chunk_no_active_meeting ⟨none, ⟨[], [], []⟩, []⟩ "hello" "2025-01-01" true rfl

/-- C2: evaluation of the worker loop at the failing input.  Stop has been
requested while the queue holds one 10-second buffer at 16 kHz (160,000
samples, far below the 30-second window).  The drain pops the buffer into the
accumulator, but the `while not stop or not queue.empty()` condition then
fails and the loop exits without ever reaching the `except queue.Empty` flush
branch: the engine is never invoked and the trailing audio is dropped,
contrary to the flush-on-stop guarantee. -/
theorem stop_drain_drops_trailing_audio (b : AudioBuf) (h : b.length = 160000) :
    worker_drain ⟨16000, MEETING_CHUNK_DURATION_SEC⟩ [b] [] 0 = [] := by
  have hlen : (b.length : ℚ) = 160000 := by rw [h]; norm_num
  norm_num [worker_drain, hlen, MEETING_CHUNK_DURATION_SEC]

theorem stop_drain_drops_trailing_audio_witness :
    worker_drain ⟨16000, MEETING_CHUNK_DURATION_SEC⟩ [List.replicate 160000 (0:ℚ)] [] 0 = [] :=
  stop_drain_drops_trailing_audio (List.replicate 160000 (0:ℚ))
    (List.length_replicate 160000 0)

/-- C9: three 10-second buffers at 16 kHz into a 30-second window make the
worker invoke the engine exactly once, with the single concatenated
480,000-sample array, unresampled (the call input is the concatenation
itself).  The accumulator is left empty, so a `stop()` issued right after
(an empty queue and an empty accumulator) triggers no further engine call. -/
theorem worker_thirty_second_window (b1 b2 b3 : AudioBuf)
    (h1 : b1.length = 160000) (h2 : b2.length = 160000) (h3 : b3.length = 160000) :
    worker_feed ⟨16000, MEETING_CHUNK_DURATION_SEC⟩ [b1, b2, b3] [] 0
      = ([], 0, [b1 ++ b2 ++ b3]) ∧
    (b1 ++ b2 ++ b3).length = 480000 ∧
    worker_drain ⟨16000, MEETING_CHUNK_DURATION_SEC⟩ [] [] 0 = [] ∧
    process_audio_chunks ⟨16000, MEETING_CHUNK_DURATION_SEC⟩ [] = none := by
  have e1 : (b1.length : ℚ) = 160000 := by rw [h1]; norm_num
  have e2 : (b2.length : ℚ) = 160000 := by rw [h2]; norm_num
  have e3 : (b3.length : ℚ) = 160000 := by rw [h3]; norm_num
  refine ⟨?_, ?_, rfl, rfl⟩
  · norm_num [worker_feed, e1, e2, e3, MEETING_CHUNK_DURATION_SEC, process_audio_chunks,
      WHISPER_SAMPLE_RATE, List.append_assoc]
  · simp [h1, h2, h3]

theorem worker_thirty_second_window_witness :
    (worker_feed ⟨16000, MEETING_CHUNK_DURATION_SEC⟩
        [List.replicate 160000 (0:ℚ), List.replicate 160000 (0:ℚ),
         List.replicate 160000 (0:ℚ)] [] 0
      = ([], 0, [List.replicate 160000 (0:ℚ) ++ List.replicate 160000 (0:ℚ) ++
                 List.replicate 160000 (0:ℚ)]) ∧
    (List.replicate 160000 (0:ℚ) ++ List.replicate 160000 (0:ℚ) ++
        List.replicate 160000 (0:ℚ)).length = 480000 ∧
    worker_drain ⟨16000, MEETING_CHUNK_DURATION_SEC⟩ [] [] 0 = [] ∧
    process_audio_chunks ⟨16000, MEETING_CHUNK_DURATION_SEC⟩ [] = none) :=
  worker_thirty_second_window _ _ _ (List.length_replicate 160000 0)
    (List.length_replicate 160000 0) (List.length_replicate 160000 0)

/-! ## Claim about recording rotation (C7) -/

/-- The eviction loop leaves strictly fewer than `max_recordings` entries. -/
lemma rotateLoop_length_lt (max_recordings : ℕ) (h : 1 ≤ max_recordings) :
    ∀ l : List FileEntry, (rotateLoop l max_recordings).length < max_recordings := by
  intro l
  induction l with
  | nil => simpa [rotateLoop] using h
  | cons r rest ih =>
      by_cases hc : max_recordings ≤ rest.length + 1
      · simpa [rotateLoop, hc] using ih
      · simp only [rotateLoop, if_neg hc, List.length_cons]
        omega

/-- The eviction loop only keeps files that were in the input list. -/
lemma rotateLoop_subset (max_recordings : ℕ) :
    ∀ l : List FileEntry, ∀ f ∈ rotateLoop l max_recordings, f ∈ l := by
  intro l
  induction l with
  | nil => simp [rotateLoop]
  | cons r rest ih =>
      intro f hf
      by_cases hc : max_recordings ≤ rest.length + 1
      · simp only [rotateLoop, if_pos hc] at hf
        exact List.mem_cons_of_mem r (ih f hf)
      · simpa only [rotateLoop, if_neg hc] using hf

/-- After `_rotate_recordings`, fewer than `max_recordings` matching files
remain. -/
lemma countMeetingWav_rotate_lt (folder : List FileEntry) (max_recordings : ℕ)
    (h : 1 ≤ max_recordings) :
    countMeetingWav (rotate_recordings folder max_recordings) < max_recordings := by
  have hsurv : ∀ f ∈ rotateLoop ((folder.filter (fun f => isMeetingWav f.name)).mergeSort
      (fun a b => a.mtime ≤ b.mtime)) max_recordings, isMeetingWav f.name = true := by
    intro f hf
    have hmem := rotateLoop_subset max_recordings _ f hf
    have : f ∈ folder.filter (fun f => isMeetingWav f.name) := List.mem_mergeSort.mp hmem
    exact (List.mem_filter.mp this).2
  have hrest : (folder.filter (fun f => !(isMeetingWav f.name))).filter
      (fun f => isMeetingWav f.name) = [] := by
    rw [List.filter_filter]
    apply List.filter_eq_nil_iff.mpr
    intro f _
    simp
  unfold countMeetingWav rotate_recordings
  rw [List.filter_append, hrest, List.nil_append,
      List.filter_eq_self.mpr hsurv]
  exact rotateLoop_length_lt max_recordings h _

/-- The generated complete-recording filename always matches the rotation
filter. -/
lemma isMeetingWav_mkRecordingFilename (timestamp meeting_id : String) :
    isMeetingWav (mkRecordingFilename timestamp meeting_id) = true := by
  unfold isMeetingWav mkRecordingFilename pyStartsWith pyEndsWith
  apply Bool.and_eq_true_iff.mpr
  constructor
  · apply List.isPrefixOf_iff_prefix.mpr
    rw [String.data_append, String.data_append, String.data_append,
        List.append_assoc, List.append_assoc]
    exact List.prefix_append _ _
  · apply List.isSuffixOf_iff_suffix.mpr
    rw [String.data_append]
    exact List.suffix_append _ _

/-- C7: after any successful `save_complete_recording`, at most
`max_recordings` files matching the `meeting_*.wav` pattern remain in the
recordings folder: eviction of the oldest matching files runs before the write
and brings the pre-existing count strictly below the cap. -/
theorem recording_rotation_cap (folder : List FileEntry) (max_recordings : ℕ)
    (timestamp meeting_id : String) (mtime : ℚ) (h : 1 ≤ max_recordings) :
    countMeetingWav
        (save_complete_recording folder max_recordings timestamp meeting_id mtime)
      ≤ max_recordings := by
  unfold save_complete_recording countMeetingWav
  rw [List.filter_append]
  rw [List.length_append]
  have h1 : countMeetingWav (rotate_recordings folder max_recordings) < max_recordings :=
    countMeetingWav_rotate_lt folder max_recordings h
  unfold countMeetingWav at h1
  have h2 : (([⟨mkRecordingFilename timestamp meeting_id, mtime⟩] : List FileEntry).filter
      (fun f => isMeetingWav f.name)).length ≤ 1 := by
    simp [List.filter]
    split <;> simp
  omega

theorem recording_rotation_cap_witness :
    1 ≤ 1 ∧ countMeetingWav (save_complete_recording [] 1 "20250101_120000" "abcd1234" 0) ≤ 1 :=
  ⟨by decide, recording_rotation_cap [] 1 "20250101_120000" "abcd1234" 0 (by decide)⟩


/-! ## Claim about re-running migrations (C8) -/

/-- A string always contains itself as a substring. -/
lemma pyContains_refl (l : List Char) : pyContains l l = true := by
  cases l with
  | nil => rfl
  | cons c rest => simp [pyContains, List.isPrefixOf_iff_prefix]

/-- The schema script makes both tables exist and never touches the version. -/
lemma executescript_schema_spec (s : SchemaState) :
    (executescript_schema s).meetings_exists = true ∧
    (executescript_schema s).insights_exists = true ∧
    (executescript_schema s).version = s.version := by
  unfold executescript_schema
  by_cases hm : s.meetings_exists = true <;> by_cases hi : s.insights_exists = true <;>
    simp [hm, hi]

/-- The schema script is the identity once its tables exist. -/
lemma executescript_schema_fixed (s : SchemaState)
    (hm : s.meetings_exists = true) (hi : s.insights_exists = true) :
    executescript_schema s = s := by
  unfold executescript_schema
  simp [hm, hi]

/-- Migration v1→v2 never escapes an error: a pre-existing `audio_file` column
raises "duplicate column name", which the handler recognizes and swallows. -/
lemma migration_v1_v2_eq (s : SchemaState) :
    migration_v1_v2 s =
      .ok (if s.meetings_has_audio_file then s
           else { s with meetings_has_audio_file := true }) := by
  unfold migration_v1_v2 alter_add_audio_file
  by_cases h : s.meetings_has_audio_file
  · simp [h, pyContains_refl]
  · simp [h]

/-- Migration v3→v4 never escapes an error: the rename runs only when the
PRAGMA reports `created_at` present and `generated_at` absent. -/
lemma migration_v3_v4_eq (s : SchemaState) :
    migration_v3_v4 s =
      .ok (if s.insights_exists ∧ s.insights_has_created_at ∧ ¬ s.insights_has_generated_at
           then { s with insights_has_created_at := false, insights_has_generated_at := true }
           else s) := by
  rcases s with ⟨ver, me, ma, ie, ic, ig⟩
  cases ie <;> cases ic <;> cases ig <;>
    simp [migration_v3_v4, insights_columns, rename_created_at]

/-- Unfolding `_run_migrations` once its two fallible steps are known to
succeed. -/
lemma run_migrations_eq_ok (s t1 t3 : SchemaState) (v : ℕ)
    (h1 : (if v < 2 then migration_v1_v2 s else .ok s) = .ok t1)
    (h3 : (if v < 4 then migration_v3_v4 (if v < 3 then migration_v2_v3 t1 else t1)
           else .ok (if v < 3 then migration_v2_v3 t1 else t1)) = .ok t3) :
    run_migrations s v = .ok { t3 with version := some SCHEMA_VERSION } := by
  unfold run_migrations
  rw [h1]
  show ((match (if v < 4 then migration_v3_v4 (if v < 3 then migration_v2_v3 t1 else t1)
         else Except.ok (if v < 3 then migration_v2_v3 t1 else t1)) with
        | Except.error e => Except.error e
        | Except.ok s3 =>
            Except.ok { s3 with version := some SCHEMA_VERSION }) :
      Except String SchemaState) =
      Except.ok { t3 with version := some SCHEMA_VERSION }
  rw [h3]

/-- `_run_migrations` succeeds from every state, sets the stored version to
the target, and preserves the existence of both tables. -/
lemma run_migrations_ok (s : SchemaState) (v : ℕ) :
    ∃ s', run_migrations s v = .ok s' ∧ s'.version = some SCHEMA_VERSION ∧
      s'.meetings_exists = s.meetings_exists ∧
      (s.insights_exists = true → s'.insights_exists = true) := by
  have h1 : (if v < 2 then migration_v1_v2 s else .ok s) =
      .ok (if v < 2 then (if s.meetings_has_audio_file then s
           else { s with meetings_has_audio_file := true }) else s) := by
    by_cases h2 : v < 2 <;> simp [h2, migration_v1_v2_eq]
  set t1 := (if v < 2 then (if s.meetings_has_audio_file then s
           else { s with meetings_has_audio_file := true }) else s) with ht1
  set t2 := (if v < 3 then migration_v2_v3 t1 else t1) with ht2
  have h3 : (if v < 4 then migration_v3_v4 t2 else .ok t2) =
      .ok (if v < 4 then
            (if t2.insights_exists ∧ t2.insights_has_created_at ∧
                ¬ t2.insights_has_generated_at
             then { t2 with insights_has_created_at := false,
                            insights_has_generated_at := true }
             else t2) else t2) := by
    by_cases h4 : v < 4 <;> simp [h4, migration_v3_v4_eq]
  refine ⟨_, run_migrations_eq_ok s t1 _ v h1 h3, rfl, ?_, ?_⟩
  · rw [ht2, ht1]
    unfold migration_v2_v3
    split_ifs <;> rfl
  · intro hie
    rw [ht2, ht1]
    unfold migration_v2_v3
    split_ifs <;> simp_all

/-- Unfolding `_init_database` on a database with no stored version row. -/
lemma init_database_none (s : SchemaState)
    (h : (executescript_schema s).version = none) :
    init_database s =
      .ok { executescript_schema s with version := some SCHEMA_VERSION } := by
  unfold init_database
  rw [h]

/-- Unfolding `_init_database` on a database with a stored version row. -/
lemma init_database_some (s : SchemaState) (v : ℕ)
    (h : (executescript_schema s).version = some v) :
    init_database s =
      if v < SCHEMA_VERSION then run_migrations (executescript_schema s) v
      else .ok (executescript_schema s) := by
  unfold init_database
  rw [h]

/-- C8: `_init_database` (schema script, version check, migrations) succeeds
from every starting schema state — including states where a migration step was
partially applied (a column or table already exists) — and running it a second
time over the resulting database, which is already at the target version,
raises no error and changes nothing, in particular leaving the stored schema
version unchanged on the second run. -/
theorem schema_migration_idempotent (s : SchemaState) :
    ∃ s', init_database s = Except.ok s' ∧ init_database s' = Except.ok s' := by
  obtain ⟨hm1, hi1, hv1⟩ := executescript_schema_spec s
  cases hver : (executescript_schema s).version with
  | none =>
      refine ⟨{ executescript_schema s with version := some SCHEMA_VERSION },
        init_database_none s hver, ?_⟩
      have hfix : executescript_schema
          { executescript_schema s with version := some SCHEMA_VERSION } =
          { executescript_schema s with version := some SCHEMA_VERSION } :=
        executescript_schema_fixed _ hm1 hi1
      rw [init_database_some _ SCHEMA_VERSION (by rw [hfix]), hfix]
      simp
  | some v =>
      by_cases hlt : v < SCHEMA_VERSION
      · obtain ⟨s2, hrun, hv2, hm2, hi2⟩ := run_migrations_ok (executescript_schema s) v
        refine ⟨s2, ?_, ?_⟩
        · rw [init_database_some s v hver, if_pos hlt, hrun]
        · have hfix : executescript_schema s2 = s2 :=
            executescript_schema_fixed s2 (hm2.trans hm1) (hi2 hi1)
          rw [init_database_some s2 SCHEMA_VERSION (by rw [hfix, hv2]), hfix]
          simp
      · refine ⟨executescript_schema s, ?_, ?_⟩
        · rw [init_database_some s v hver, if_neg hlt]
        · have hfix : executescript_schema (executescript_schema s) =
              executescript_schema s := executescript_schema_fixed _ hm1 hi1
          rw [init_database_some _ v (by rw [hfix, hver]), hfix, if_neg hlt]

/-! ## Claim about cascade delete (C6) -/

/-- C6: for a stored id, `delete_meeting` returns `true` and removes the
Session row together with all of its Chunk rows and Insight rows (cascade),
leaving every other row in place; for an id not in the store it returns
`false` and changes nothing. -/
theorem delete_meeting_cascade (db : DB) (meeting_id : String) :
    ((meeting_id ∈ db.meetings.map MeetingRow.id) →
      DatabaseManager.delete_meeting db meeting_id =
        (true, ⟨db.meetings.filter (fun m => !(m.id == meeting_id)),
                db.chunks.filter (fun c => !(c.meeting_id == meeting_id)),
                db.insights.filter (fun i => !(i.meeting_id == meeting_id))⟩)) ∧
    ((meeting_id ∉ db.meetings.map MeetingRow.id) →
      DatabaseManager.delete_meeting db meeting_id = (false, db)) := by
  constructor
  · intro hmem
    obtain ⟨m, hm, hid⟩ := List.mem_map.mp hmem
    have hany : db.meetings.any (fun m => m.id == meeting_id) = true :=
      List.any_eq_true.mpr ⟨m, hm, by simp [hid]⟩
    unfold DatabaseManager.delete_meeting
    rw [hany]
    simp
  · intro hmem
    have hany : db.meetings.any (fun m => m.id == meeting_id) = false := by
      rw [List.any_eq_false]
      intro m hm
      simp only [beq_iff_eq]
      intro hid
      exact hmem (List.mem_map.mpr ⟨m, hm, hid⟩)
    have hfilt : db.meetings.filter (fun m => !(m.id == meeting_id)) = db.meetings := by
      apply List.filter_eq_self.mpr
      intro m hm
      have := List.any_eq_false.mp hany m hm
      simp_all
    unfold DatabaseManager.delete_meeting
    rw [hany]
    simp [hfilt]

theorem delete_meeting_cascade_witness :
    ("a" ∈ (⟨[⟨"a", "t", "s", none, 0, "", "completed", none⟩,
              ⟨"b", "u", "s", none, 0, "", "completed", none⟩],
             [⟨"a", 0, "x", "ts", none⟩, ⟨"b", 0, "y", "ts", none⟩],
             [⟨"a", "summary", "c", none, "g"⟩]⟩ : DB).meetings.map MeetingRow.id) ∧
    DatabaseManager.delete_meeting
        ⟨[⟨"a", "t", "s", none, 0, "", "completed", none⟩,
          ⟨"b", "u", "s", none, 0, "", "completed", none⟩],
         [⟨"a", 0, "x", "ts", none⟩, ⟨"b", 0, "y", "ts", none⟩],
         [⟨"a", "summary", "c", none, "g"⟩]⟩ "a" =
      (true, ⟨[⟨"b", "u", "s", none, 0, "", "completed", none⟩],
              [⟨"b", 0, "y", "ts", none⟩], []⟩) := by
  constructor
  · decide
  · have h := (delete_meeting_cascade
      ⟨[⟨"a", "t", "s", none, 0, "", "completed", none⟩,
        ⟨"b", "u", "s", none, 0, "", "completed", none⟩],
       [⟨"a", 0, "x", "ts", none⟩, ⟨"b", 0, "y", "ts", none⟩],
       [⟨"a", "summary", "c", none, "g"⟩]⟩ "a").1 (by decide)
    rw [h]
    decide

/-! ## Claim about atomicity of `add_meeting_chunk` (C1) -/

/-- `find?` by id commutes with mapping an id-preserving function. -/
lemma find?_map_of_id (l : List MeetingRow) (f : MeetingRow → MeetingRow)
    (hf : ∀ m, (f m).id = m.id) (mid : String) :
    (l.map f).find? (fun m => m.id == mid) = (l.find? (fun m => m.id == mid)).map f := by
  induction l with
  | nil => rfl
  | cons a l ih =>
      simp only [List.map_cons, List.find?_cons, hf a]
      cases ha : (a.id == mid) with
      | true => simp [ha]
      | false => simp [ha, ih]

/-- The transcript UPDATE statement leaves the chunk table alone. -/
lemma updateTranscriptStmt_chunks (db : DB) (mid text : String) :
    (DatabaseManager.updateTranscriptStmt db mid text).chunks = db.chunks := by
  unfold DatabaseManager.updateTranscriptStmt
  cases h : DatabaseManager.findMeeting db mid <;> simp [h]

/-- The error-free `add_meeting_chunk` is the INSERT followed by the
transcript UPDATE, committed. -/
lemma add_meeting_chunk_eq (db : DB) (mid : String) (idx : ℕ) (text ts : String)
    (afile : Option String) :
    DatabaseManager.add_meeting_chunk db mid idx text ts afile =
      DatabaseManager.updateTranscriptStmt
        (DatabaseManager.insertChunkStmt db mid idx text ts afile) mid text := rfl

/-- The transcript UPDATE statement replaces the parent's transcript by its
extension (and does nothing when the id is absent). -/
lemma updateTranscriptStmt_transcript (db : DB) (mid text : String) :
    DatabaseManager.transcript_of (DatabaseManager.updateTranscriptStmt db mid text) mid =
      (DatabaseManager.transcript_of db mid).map
        (fun cur => DatabaseManager.extendTranscript cur text) := by
  unfold DatabaseManager.transcript_of DatabaseManager.updateTranscriptStmt
  cases hfm : DatabaseManager.findMeeting db mid with
  | none => simp [hfm]
  | some row =>
      have hfm' : db.meetings.find? (fun m => m.id == mid) = some row := hfm
      have hrow : (row.id == mid) = true := by
        have h := List.find?_some hfm'
        simpa using h
      have hmap : DatabaseManager.findMeeting
          { db with meetings := db.meetings.map (fun m =>
              if m.id == mid then
                { m with transcript := DatabaseManager.extendTranscript row.transcript text }
              else m) } mid =
          (db.meetings.find? (fun m => m.id == mid)).map (fun m =>
              if m.id == mid then
                { m with transcript := DatabaseManager.extendTranscript row.transcript text }
              else m) := by
        apply find?_map_of_id
        intro m
        by_cases h : (m.id == mid) = true <;> simp [h]
      rw [hmap, hfm']
      have hrow2 : row.id = mid := by simpa using hrow
      simp [hrow2]

/-- `add_meeting_chunk` extends the parent's stored transcript. -/
lemma transcript_of_add_meeting_chunk (db : DB) (mid : String) (idx : ℕ)
    (text ts : String) (afile : Option String) :
    DatabaseManager.transcript_of
        (DatabaseManager.add_meeting_chunk db mid idx text ts afile) mid =
      (DatabaseManager.transcript_of db mid).map
        (fun cur => DatabaseManager.extendTranscript cur text) := by
  rw [add_meeting_chunk_eq]
  exact updateTranscriptStmt_transcript
    (DatabaseManager.insertChunkStmt db mid idx text ts afile) mid text

/-- C1: for a session id present in the store, `add_meeting_chunk` is atomic:
whatever statement (INSERT, UPDATE, COMMIT) an injected error hits, the
committed store is either exactly the pre-call store (rollback — neither the
chunk row nor the transcript change persists) or exactly the error-free
result, in which the chunk row exists and the parent's transcript is its
extension by the chunk's text.  A state with only one of the two changes is
unreachable. -/
theorem add_meeting_chunk_atomic (db : DB) (meeting_id : String) (chunk_index : ℕ)
    (text timestamp : String) (audio_file : Option String)
    (_h : (DatabaseManager.findMeeting db meeting_id).isSome) (failAt : Option ℕ) :
    DatabaseManager.add_meeting_chunk_tx db meeting_id chunk_index text timestamp
        audio_file failAt = db ∨
    (DatabaseManager.add_meeting_chunk_tx db meeting_id chunk_index text timestamp
        audio_file failAt =
       DatabaseManager.add_meeting_chunk db meeting_id chunk_index text timestamp audio_file ∧
     (⟨meeting_id, chunk_index, text, timestamp, audio_file⟩ : ChunkRow) ∈
       (DatabaseManager.add_meeting_chunk db meeting_id chunk_index text timestamp
         audio_file).chunks ∧
     DatabaseManager.transcript_of
         (DatabaseManager.add_meeting_chunk db meeting_id chunk_index text timestamp
           audio_file) meeting_id =
       (DatabaseManager.transcript_of db meeting_id).map
         (fun cur => DatabaseManager.extendTranscript cur text)) := by
  have hchunks : (⟨meeting_id, chunk_index, text, timestamp, audio_file⟩ : ChunkRow) ∈
      (DatabaseManager.add_meeting_chunk db meeting_id chunk_index text timestamp
        audio_file).chunks := by
    rw [add_meeting_chunk_eq, updateTranscriptStmt_chunks]
    exact List.mem_append_right _ (List.mem_singleton.mpr rfl)
  match failAt with
  | none =>
      exact Or.inr ⟨rfl, hchunks,
        transcript_of_add_meeting_chunk db meeting_id chunk_index text timestamp audio_file⟩
  | some 0 => exact Or.inl rfl
  | some 1 => exact Or.inl rfl
  | some 2 => exact Or.inl rfl
  | some (k + 3) =>
      exact Or.inr ⟨rfl, hchunks,
        transcript_of_add_meeting_chunk db meeting_id chunk_index text timestamp audio_file⟩

theorem add_meeting_chunk_atomic_witness :
    ((DatabaseManager.findMeeting
        ⟨[⟨"m", "T", "s", none, 0, "", "in_progress", none⟩], [], []⟩ "m").isSome ∧
     (DatabaseManager.add_meeting_chunk_tx
        ⟨[⟨"m", "T", "s", none, 0, "", "in_progress", none⟩], [], []⟩
        "m" 0 "hello" "t1" none (some 1) =
          ⟨[⟨"m", "T", "s", none, 0, "", "in_progress", none⟩], [], []⟩ ∨
      (DatabaseManager.add_meeting_chunk_tx
         ⟨[⟨"m", "T", "s", none, 0, "", "in_progress", none⟩], [], []⟩
         "m" 0 "hello" "t1" none (some 1) =
           DatabaseManager.add_meeting_chunk
             ⟨[⟨"m", "T", "s", none, 0, "", "in_progress", none⟩], [], []⟩
             "m" 0 "hello" "t1" none ∧
       (⟨"m", 0, "hello", "t1", none⟩ : ChunkRow) ∈
         (DatabaseManager.add_meeting_chunk
           ⟨[⟨"m", "T", "s", none, 0, "", "in_progress", none⟩], [], []⟩
           "m" 0 "hello" "t1" none).chunks ∧
       DatabaseManager.transcript_of
           (DatabaseManager.add_meeting_chunk
             ⟨[⟨"m", "T", "s", none, 0, "", "in_progress", none⟩], [], []⟩
             "m" 0 "hello" "t1" none) "m" =
         (DatabaseManager.transcript_of
             ⟨[⟨"m", "T", "s", none, 0, "", "in_progress", none⟩], [], []⟩ "m").map
           (fun cur => DatabaseManager.extendTranscript cur "hello")))) :=
  ⟨by decide,
   add_meeting_chunk_atomic
     ⟨[⟨"m", "T", "s", none, 0, "", "in_progress", none⟩], [], []⟩
     "m" 0 "hello" "t1" none (by decide) (some 1)⟩

/-! ## Claim about crash recovery (C4) -/

/-- Marking a batch of rows interrupted, when the recorded durations agree
with the rows, updates exactly the rows whose ids occur in the batch, leaving
each row's duration unchanged. -/
lemma mark_foldl_eq (now : String) :
    ∀ (L : List MeetingRow) (db : DB),
      (∀ p ∈ L, ∀ r ∈ db.meetings, r.id = p.id →
        r.duration_seconds = p.duration_seconds) →
      (L.foldl (fun d m =>
          DatabaseManager.mark_meeting_interrupted d m.id now m.duration_seconds)
        db).meetings
        = db.meetings.map (fun r =>
            if r.id ∈ L.map MeetingRow.id
            then { r with end_time := some now, status := "interrupted" }
            else r) := by
  intro L
  induction L with
  | nil =>
      intro db _
      simp
  | cons p L' ih =>
      intro db hdur
      rw [List.foldl_cons]
      rw [ih (DatabaseManager.mark_meeting_interrupted db p.id now p.duration_seconds) ?hd]
      case hd =>
        intro q hq r1 hr1 hid
        have hr1' : r1 ∈ db.meetings.map (fun m =>
            if m.id == p.id then
              { m with end_time := some now, duration_seconds := p.duration_seconds,
                       status := "interrupted" }
            else m) := hr1
        obtain ⟨r, hr, hfr⟩ := List.mem_map.mp hr1'
        by_cases hrp : (r.id == p.id) = true
        · have hrp' : r.id = p.id := by simpa using hrp
          have hdr : r.duration_seconds = p.duration_seconds :=
            hdur p (List.mem_cons_self p L') r hr hrp'
          have hfr' : r1 = ({ r with
              end_time := some now,
              duration_seconds := p.duration_seconds,
              status := "interrupted" }) := by
            rw [← hfr]
            simp [hrp]
          have hidr : r.id = q.id := by
            rw [hfr'] at hid
            exact hid
          have hq' := hdur q (List.mem_cons_of_mem p hq) r hr hidr
          rw [hfr']
          exact hdr.symm.trans hq'
        · have hfr' : r1 = r := by
            rw [← hfr]
            simp [hrp]
          rw [hfr'] at hid ⊢
          exact hdur q (List.mem_cons_of_mem p hq) r hr hid
      · have hmk : (DatabaseManager.mark_meeting_interrupted db p.id now
            p.duration_seconds).meetings = db.meetings.map (fun m =>
              if m.id == p.id then
                { m with end_time := some now, duration_seconds := p.duration_seconds,
                         status := "interrupted" }
              else m) := rfl
        rw [hmk, List.map_map]
        apply List.map_congr_left
        intro r hr
        simp only [Function.comp]
        by_cases hrp : (r.id == p.id) = true
        · have hrp' : r.id = p.id := by simpa using hrp
          have hdr : r.duration_seconds = p.duration_seconds :=
            hdur p (List.mem_cons_self p L') r hr hrp'
          by_cases hmem : r.id ∈ L'.map MeetingRow.id <;>
            simp [hrp, hrp', hmem, ← hdr, List.map_cons, List.mem_cons]
        · have hrp' : ¬ r.id = p.id := by simpa using hrp
          by_cases hmem : r.id ∈ L'.map MeetingRow.id <;>
            simp [hrp, hrp', hmem, List.map_cons, List.mem_cons]

/-- C4: startup crash recovery (`_check_interrupted_meetings`) transitions
every `in_progress` Session row to `interrupted`, setting its end time to
"now" and leaving its duration at the last persisted value, and touches no
other row; afterwards no row remains `in_progress`.  (Ids are assumed
distinct, as `meetings.id` is the primary key.) -/
theorem crash_recovery_marks_interrupted (db : DB) (now : String)
    (hnd : (db.meetings.map MeetingRow.id).Nodup) :
    (MeetingStorage.check_interrupted_meetings db now).meetings
      = db.meetings.map (fun m =>
          if m.status = "in_progress"
          then { m with end_time := some now, status := "interrupted" }
          else m) ∧
    ∀ m ∈ (MeetingStorage.check_interrupted_meetings db now).meetings,
      ¬ m.status = "in_progress" := by
  have hinj := List.inj_on_of_nodup_map hnd
  have hdur : ∀ p ∈ DatabaseManager.get_in_progress_meetings db,
      ∀ r ∈ db.meetings, r.id = p.id →
      r.duration_seconds = p.duration_seconds := by
    intro p hp r hr hid
    have hpmem : p ∈ db.meetings := (List.mem_filter.mp hp).1
    have hrp : r = p := hinj hr hpmem hid
    rw [hrp]
  have hfold := mark_foldl_eq now (DatabaseManager.get_in_progress_meetings db) db hdur
  have hceq : (MeetingStorage.check_interrupted_meetings db now).meetings
      = ((DatabaseManager.get_in_progress_meetings db).foldl (fun d m =>
          DatabaseManager.mark_meeting_interrupted d m.id now m.duration_seconds)
        db).meetings := rfl
  have hmain : (MeetingStorage.check_interrupted_meetings db now).meetings
      = db.meetings.map (fun m =>
          if m.status = "in_progress"
          then { m with end_time := some now, status := "interrupted" }
          else m) := by
    rw [hceq, hfold]
    apply List.map_congr_left
    intro r hr
    by_cases hst : r.status = "in_progress"
    · have hrL : r ∈ DatabaseManager.get_in_progress_meetings db :=
        List.mem_filter.mpr ⟨hr, by simp [hst]⟩
      have hmem : r.id ∈ (DatabaseManager.get_in_progress_meetings db).map
          MeetingRow.id := List.mem_map.mpr ⟨r, hrL, rfl⟩
      simp [hmem, hst]
    · have hmem : ¬ r.id ∈ (DatabaseManager.get_in_progress_meetings db).map
          MeetingRow.id := by
        intro hmem
        obtain ⟨p, hp, hpid⟩ := List.mem_map.mp hmem
        have hpmem : p ∈ db.meetings := (List.mem_filter.mp hp).1
        have hpr : p = r := hinj hpmem hr hpid
        have hpst := (List.mem_filter.mp hp).2
        rw [hpr] at hpst
        exact hst (by simpa using hpst)
      simp [hmem, hst]
  refine ⟨hmain, ?_⟩
  intro m hm
  rw [hmain] at hm
  obtain ⟨r, hr, hfr⟩ := List.mem_map.mp hm
  by_cases hst : r.status = "in_progress" <;> rw [← hfr] <;> simp [hst]

theorem crash_recovery_marks_interrupted_witness :
    ((([⟨"a", "t", "s", none, 5, "x", "in_progress", none⟩,
        ⟨"b", "u", "s", none, 7, "y", "completed", some "f.wav"⟩] :
        List MeetingRow).map MeetingRow.id).Nodup ∧
     ((MeetingStorage.check_interrupted_meetings
          ⟨[⟨"a", "t", "s", none, 5, "x", "in_progress", none⟩,
            ⟨"b", "u", "s", none, 7, "y", "completed", some "f.wav"⟩], [], []⟩
          "2025-06-01").meetings
        = ([⟨"a", "t", "s", none, 5, "x", "in_progress", none⟩,
            ⟨"b", "u", "s", none, 7, "y", "completed", some "f.wav"⟩] :
            List MeetingRow).map (fun m =>
            if m.status = "in_progress"
            then { m with end_time := some "2025-06-01", status := "interrupted" }
            else m) ∧
      ∀ m ∈ (MeetingStorage.check_interrupted_meetings
          ⟨[⟨"a", "t", "s", none, 5, "x", "in_progress", none⟩,
            ⟨"b", "u", "s", none, 7, "y", "completed", some "f.wav"⟩], [], []⟩
          "2025-06-01").meetings,
        ¬ m.status = "in_progress")) :=
  ⟨by decide,
   crash_recovery_marks_interrupted
     ⟨[⟨"a", "t", "s", none, 5, "x", "in_progress", none⟩,
       ⟨"b", "u", "s", none, 7, "y", "completed", some "f.wav"⟩], [], []⟩
     "2025-06-01" (by decide)⟩

/-! ## Claim about immutability of terminated sessions (C5) -/

/-- The store operations exposed by `DatabaseManager` that write the
`meetings` table (reads change nothing and are omitted). -/
inductive StoreOp where
  | create_meeting (meeting_id title start_time : String)
  | add_meeting_chunk (meeting_id : String) (chunk_index : ℕ)
      (text timestamp : String) (audio_file : Option String)
  | end_meeting (meeting_id end_time : String) (duration_seconds : ℚ)
      (audio_file : Option String)
  | mark_meeting_interrupted (meeting_id end_time : String) (duration_seconds : ℚ)
  | delete_meeting (meeting_id : String)
  | update_meeting_title (meeting_id title : String)
deriving DecidableEq, Repr

/-- Effect of a store operation on the database (return values dropped). -/
def applyStoreOp : StoreOp → DB → DB
  | .create_meeting mid title start_time, db =>
      DatabaseManager.create_meeting db mid title start_time
  | .add_meeting_chunk mid idx text ts afile, db =>
      DatabaseManager.add_meeting_chunk db mid idx text ts afile
  | .end_meeting mid et dur afile, db => DatabaseManager.end_meeting db mid et dur afile
  | .mark_meeting_interrupted mid et dur, db =>
      DatabaseManager.mark_meeting_interrupted db mid et dur
  | .delete_meeting mid, db => (DatabaseManager.delete_meeting db mid).2
  | .update_meeting_title mid title, db =>
      (DatabaseManager.update_meeting_title db mid title).2

/-- The session id an operation writes to; `create_meeting` cannot mutate an
existing row (a duplicate insert raises and changes nothing). -/
def StoreOp.writesId : StoreOp → Option String
  | .create_meeting .. => none
  | .add_meeting_chunk mid .. => some mid
  | .end_meeting mid .. => some mid
  | .mark_meeting_interrupted mid .. => some mid
  | .delete_meeting mid => some mid
  | .update_meeting_title mid _ => some mid

/-- C5 counterexample: `update_meeting_title` is not `deleteSession`, yet it
mutates a Session whose status is `completed` (the source has no status
guard), so a terminated Session row is not immutable. -/
theorem terminated_session_mutated_counterexample :
    (∀ m ∈ (⟨[⟨"m", "old", "s", some "e", 5, "tr", "completed", none⟩], [], []⟩ :
        DB).meetings, m.status = "completed") ∧
    applyStoreOp (StoreOp.update_meeting_title "m" "renamed")
        ⟨[⟨"m", "old", "s", some "e", 5, "tr", "completed", none⟩], [], []⟩ =
      ⟨[⟨"m", "renamed", "s", some "e", 5, "tr", "completed", none⟩], [], []⟩ ∧
    (⟨[⟨"m", "renamed", "s", some "e", 5, "tr", "completed", none⟩], [], []⟩ : DB) ≠
      ⟨[⟨"m", "old", "s", some "e", 5, "tr", "completed", none⟩], [], []⟩ := by
  refine ⟨?_, ?_, ?_⟩ <;> decide

/-- C5 amended: a terminated Session row is mutable — `update_meeting_title`,
`end_meeting`, `mark_meeting_interrupted` and `add_meeting_chunk` write to a
row regardless of its status — but every store operation that does not write
to its id (creation of other sessions, deletion or mutation of other ids, and
all reads) leaves the row in the table unchanged. -/
theorem terminated_session_preserved_by_other_ops (db : DB) (op : StoreOp)
    (m : MeetingRow) (hm : m ∈ db.meetings) (_hst : ¬ m.status = "in_progress")
    (hop : op.writesId ≠ some m.id) :
    m ∈ (applyStoreOp op db).meetings := by
  cases op with
  | create_meeting mid title start_time =>
      unfold applyStoreOp DatabaseManager.create_meeting
      by_cases h : db.meetings.any (fun r => r.id == mid) = true
      · simpa [h] using hm
      · simp only [h]
        simp only [Bool.false_eq_true, if_false]
        exact List.mem_append_left _ hm
  | add_meeting_chunk mid idx text ts afile =>
      have hne : ¬ m.id = mid := by
        intro h
        exact hop (by simp [StoreOp.writesId, h])
      show m ∈ (DatabaseManager.add_meeting_chunk db mid idx text ts afile).meetings
      rw [add_meeting_chunk_eq]
      unfold DatabaseManager.updateTranscriptStmt
      cases hfm : DatabaseManager.findMeeting
          (DatabaseManager.insertChunkStmt db mid idx text ts afile) mid with
      | none => exact hm
      | some row =>
          apply List.mem_map.mpr
          refine ⟨m, hm, ?_⟩
          simp [hne]
  | end_meeting mid et dur afile =>
      have hne : ¬ m.id = mid := by
        intro h
        exact hop (by simp [StoreOp.writesId, h])
      unfold applyStoreOp DatabaseManager.end_meeting
      apply List.mem_map.mpr
      refine ⟨m, hm, ?_⟩
      simp [hne]
  | mark_meeting_interrupted mid et dur =>
      have hne : ¬ m.id = mid := by
        intro h
        exact hop (by simp [StoreOp.writesId, h])
      unfold applyStoreOp DatabaseManager.mark_meeting_interrupted
      apply List.mem_map.mpr
      refine ⟨m, hm, ?_⟩
      simp [hne]
  | delete_meeting mid =>
      have hne : ¬ m.id = mid := by
        intro h
        exact hop (by simp [StoreOp.writesId, h])
      unfold applyStoreOp DatabaseManager.delete_meeting
      apply List.mem_filter.mpr
      exact ⟨hm, by simp [hne]⟩
  | update_meeting_title mid title =>
      have hne : ¬ m.id = mid := by
        intro h
        exact hop (by simp [StoreOp.writesId, h])
      unfold applyStoreOp DatabaseManager.update_meeting_title
      apply List.mem_map.mpr
      refine ⟨m, hm, ?_⟩
      simp [hne]

theorem terminated_session_preserved_witness :
    ((⟨"m", "old", "s", some "e", 5, "tr", "completed", none⟩ : MeetingRow) ∈
      (⟨[⟨"m", "old", "s", some "e", 5, "tr", "completed", none⟩], [], []⟩ : DB).meetings ∧
     ¬ (⟨"m", "old", "s", some "e", 5, "tr", "completed", none⟩ : MeetingRow).status =
       "in_progress" ∧
     (StoreOp.delete_meeting "other").writesId ≠
       some (⟨"m", "old", "s", some "e", 5, "tr", "completed", none⟩ : MeetingRow).id ∧
     (⟨"m", "old", "s", some "e", 5, "tr", "completed", none⟩ : MeetingRow) ∈
       (applyStoreOp (StoreOp.delete_meeting "other")
         ⟨[⟨"m", "old", "s", some "e", 5, "tr", "completed", none⟩], [], []⟩).meetings) :=
  ⟨by decide, by decide, by decide,
   terminated_session_preserved_by_other_ops
     ⟨[⟨"m", "old", "s", some "e", 5, "tr", "completed", none⟩], [], []⟩
     (StoreOp.delete_meeting "other")
     ⟨"m", "old", "s", some "e", 5, "tr", "completed", none⟩
     (by decide) (by decide) (by decide)⟩

/-! ## Claim about the transcript as space-join of the chunk texts (C3) -/

/-- The string is nonempty and neither starts nor ends with whitespace. -/
def NoEdgeSpace (s : String) : Prop :=
  (∃ a xs, s.data = a :: xs ∧ isPySpace a = false) ∧
  (∃ b ys, s.data.reverse = b :: ys ∧ isPySpace b = false)

lemma dropWhile_cons_of_neg (a : Char) (xs : List Char) (h : isPySpace a = false) :
    (a :: xs).dropWhile isPySpace = a :: xs := by
  simp [List.dropWhile_cons, h]

lemma stripChars_eq_self_of (l : List Char)
    (h1 : ∃ a xs, l = a :: xs ∧ isPySpace a = false)
    (h2 : ∃ b ys, l.reverse = b :: ys ∧ isPySpace b = false) :
    stripChars l = l := by
  obtain ⟨a, xs, rfl, ha⟩ := h1
  obtain ⟨b, ys, hrev, hb⟩ := h2
  unfold stripChars
  rw [dropWhile_cons_of_neg a xs ha, hrev, dropWhile_cons_of_neg b ys hb, ← hrev,
      List.reverse_reverse]

/-- Python `strip()` is the identity on strings with no edge whitespace. -/
lemma pyStrip_of_noEdgeSpace (s : String) (h : NoEdgeSpace s) : pyStrip s = s := by
  obtain ⟨h1, h2⟩ := h
  unfold pyStrip
  rw [stripChars_eq_self_of s.data h1 h2]

/-- Conversely, a nonempty fixed point of `strip()` has no edge whitespace. -/
lemma noEdgeSpace_of_stripped (t : String) (hne : t ≠ "") (hs : pyStrip t = t) :
    NoEdgeSpace t := by
  have hdata : stripChars t.data = t.data := congrArg String.data hs
  have hnil : t.data ≠ [] := by
    intro h
    apply hne
    apply String.ext
    rw [h]
  have hstrip : ((t.data.dropWhile isPySpace).reverse.dropWhile isPySpace).reverse
      = t.data := hdata
  have hlv : ((t.data.dropWhile isPySpace).reverse.dropWhile isPySpace).length ≤
      (t.data.dropWhile isPySpace).length := by
    calc ((t.data.dropWhile isPySpace).reverse.dropWhile isPySpace).length
        ≤ (t.data.dropWhile isPySpace).reverse.length :=
          (List.dropWhile_suffix _).sublist.length_le
      _ = (t.data.dropWhile isPySpace).length := List.length_reverse _
  have hlu : (t.data.dropWhile isPySpace).length ≤ t.data.length :=
    (List.dropWhile_suffix _).sublist.length_le
  have hlen : ((t.data.dropWhile isPySpace).reverse.dropWhile isPySpace).length
      = t.data.length := by
    have h := congrArg List.length hstrip
    rwa [List.length_reverse] at h
  have hueq : t.data.dropWhile isPySpace = t.data :=
    (List.dropWhile_suffix _).eq_of_length (by omega)
  have hveq : (t.data.reverse).dropWhile isPySpace = t.data.reverse := by
    have hv := hstrip
    rw [hueq] at hv
    calc (t.data.reverse).dropWhile isPySpace
        = ((t.data.reverse).dropWhile isPySpace).reverse.reverse :=
          (List.reverse_reverse _).symm
      _ = t.data.reverse := by rw [hv]
  obtain ⟨a, xs, hax⟩ : ∃ a xs, t.data = a :: xs := by
    cases h : t.data with
    | nil => exact absurd h hnil
    | cons a xs => exact ⟨a, xs, rfl⟩
  obtain ⟨b, ys, hby⟩ : ∃ b ys, t.data.reverse = b :: ys := by
    cases h : t.data.reverse with
    | nil =>
        exfalso
        apply hnil
        have h2 := congrArg List.reverse h
        rwa [List.reverse_reverse] at h2
    | cons b ys => exact ⟨b, ys, rfl⟩
  have ha : isPySpace a = false := by
    cases ha : isPySpace a with
    | false => rfl
    | true =>
        exfalso
        have hd : t.data.dropWhile isPySpace = xs.dropWhile isPySpace := by
          rw [hax]
          simp [List.dropWhile_cons, ha]
        have hle : (t.data.dropWhile isPySpace).length ≤ xs.length := by
          rw [hd]
          exact (List.dropWhile_suffix _).sublist.length_le
        rw [hueq, hax] at hle
        simp [List.length_cons] at hle
  have hb : isPySpace b = false := by
    cases hbv : isPySpace b with
    | false => rfl
    | true =>
        exfalso
        have hd : (t.data.reverse).dropWhile isPySpace = ys.dropWhile isPySpace := by
          rw [hby]
          simp [List.dropWhile_cons, hbv]
        have hle : ((t.data.reverse).dropWhile isPySpace).length ≤ ys.length := by
          rw [hd]
          exact (List.dropWhile_suffix _).sublist.length_le
        rw [hveq, hby] at hle
        simp [List.length_cons] at hle
  exact ⟨⟨a, xs, hax, ha⟩, ⟨b, ys, hby, hb⟩⟩

/-- On texts with no edge whitespace, the source's transcript-extension rule
is plain concatenation with a single space, and the result again has no edge
whitespace. -/
lemma extendTranscript_append (a t : String) (hA : NoEdgeSpace a) (hT : NoEdgeSpace t) :
    DatabaseManager.extendTranscript a t = a ++ " " ++ t ∧ NoEdgeSpace (a ++ " " ++ t) := by
  obtain ⟨⟨c, xs, hax, hc⟩, _⟩ := hA
  obtain ⟨_, ⟨f, ws, hfw, hf⟩⟩ := hT
  have hane : a ≠ "" := by
    intro h
    rw [h] at hax
    exact absurd hax (by simp)
  have hdata : (a ++ " " ++ t).data = a.data ++ (' ' :: t.data) := by
    rw [String.data_append, String.data_append]
    simp
  have hhead : ∃ p ps, (a ++ " " ++ t).data = p :: ps ∧ isPySpace p = false := by
    refine ⟨c, xs ++ ' ' :: t.data, ?_, hc⟩
    rw [hdata, hax]
    simp
  have hlast : ∃ q qs, (a ++ " " ++ t).data.reverse = q :: qs ∧ isPySpace q = false := by
    refine ⟨f, ws ++ (' ' :: a.data.reverse), ?_, hf⟩
    rw [hdata, List.reverse_append, List.reverse_cons, hfw]
    simp
  constructor
  · unfold DatabaseManager.extendTranscript
    rw [if_pos hane]
    exact pyStrip_of_noEdgeSpace _ ⟨hhead, hlast⟩
  · exact ⟨hhead, hlast⟩

/-- Folding the extension rule over no-edge-space texts from a no-edge-space
accumulator computes the single-space join. -/
lemma foldl_extend_join (texts : List String) :
    ∀ acc : String, NoEdgeSpace acc → (∀ t ∈ texts, NoEdgeSpace t) →
      texts.foldl DatabaseManager.extendTranscript acc = pyJoinSp (acc :: texts) ∧
      NoEdgeSpace (texts.foldl DatabaseManager.extendTranscript acc) := by
  induction texts with
  | nil =>
      intro acc hacc _
      exact ⟨rfl, hacc⟩
  | cons t ts ih =>
      intro acc hacc hts
      have h1 := extendTranscript_append acc t hacc (hts t (List.mem_cons_self t ts))
      rw [List.foldl_cons, h1.1]
      have h2 := ih (acc ++ " " ++ t) h1.2 (fun x hx => hts x (List.mem_cons_of_mem t hx))
      refine ⟨?_, h2.2⟩
      rw [h2.1]
      cases ts with
      | nil => rfl
      | cons t2 rest =>
          show (acc ++ " " ++ t) ++ " " ++ pyJoinSp (t2 :: rest)
              = acc ++ " " ++ (t ++ " " ++ pyJoinSp (t2 :: rest))
          simp [String.append_assoc]

/-- `MeetingStorage.add_chunk` repeated over a list of texts, seen at the DB
level: each call derives its chunk index from the persisted chunk count. -/
def add_chunks (db : DB) (mid ts : String) (texts : List String) : DB :=
  texts.foldl (fun d t =>
    DatabaseManager.add_meeting_chunk d mid
      (DatabaseManager.get_meeting_chunk_count d mid) t ts none) db

/-- The stored transcript after a sequence of chunk appends is the fold of the
extension rule over the appended texts. -/
lemma transcript_of_add_chunks (mid ts : String) (texts : List String) :
    ∀ db : DB,
      DatabaseManager.transcript_of (add_chunks db mid ts texts) mid
        = (DatabaseManager.transcript_of db mid).map
            (fun cur => texts.foldl DatabaseManager.extendTranscript cur) := by
  induction texts with
  | nil =>
      intro db
      show DatabaseManager.transcript_of db mid
          = (DatabaseManager.transcript_of db mid).map (fun cur => cur)
      cases DatabaseManager.transcript_of db mid <;> rfl
  | cons t ts' ih =>
      intro db
      have hstep : add_chunks db mid ts (t :: ts') =
          add_chunks (DatabaseManager.add_meeting_chunk db mid
            (DatabaseManager.get_meeting_chunk_count db mid) t ts none) mid ts ts' := rfl
      rw [hstep, ih, transcript_of_add_meeting_chunk]
      cases DatabaseManager.transcript_of db mid <;> simp

/-- `end_meeting` does not touch the stored transcript. -/
lemma transcript_of_end_meeting (db : DB) (mid et : String) (dur : ℚ)
    (afile : Option String) :
    DatabaseManager.transcript_of
        (DatabaseManager.end_meeting db mid et dur afile) mid
      = DatabaseManager.transcript_of db mid := by
  unfold DatabaseManager.transcript_of DatabaseManager.end_meeting
  have hmap : DatabaseManager.findMeeting
      { db with meetings := db.meetings.map (fun m =>
          if m.id == mid then
            { m with end_time := some et, duration_seconds := dur,
                     status := "completed", audio_file := afile }
          else m) } mid
      = (db.meetings.find? (fun m => m.id == mid)).map (fun m =>
          if m.id == mid then
            { m with end_time := some et, duration_seconds := dur,
                     status := "completed", audio_file := afile }
          else m) := by
    apply find?_map_of_id
    intro m
    by_cases h : (m.id == mid) = true <;> simp [h]
  rw [hmap]
  unfold DatabaseManager.findMeeting
  cases db.meetings.find? (fun m => m.id == mid) with
  | none => rfl
  | some row =>
      simp only [Option.map_some']
      split <;> rfl

/-- C3 counterexample: the claim fails for chunk texts with edge whitespace.
Adding chunks " a" (index 0) then "b" (index 1) to a fresh session and ending
the meeting stores transcript "a b" — the `strip()` inside `add_meeting_chunk`
removed the leading space — while the single-space join of the two texts is
" a b". -/
theorem transcript_space_join_counterexample :
    DatabaseManager.transcript_of
        (DatabaseManager.end_meeting
          (add_chunks ⟨[⟨"m", "T", "s", none, 0, "", "in_progress", none⟩], [], []⟩
            "m" "t0" [" a", "b"]) "m" "e" 1 none) "m"
      ≠ some (pyJoinSp [" a", "b"]) := by decide

/-- C3 amended: restricted to chunk texts that are non-empty and carry no
leading or trailing whitespace (which is what the worker emits: it joins
segment texts and strips the result, dropping empty results), the stored
transcript after appending the texts in index order — and after `end_meeting`,
which leaves the transcript untouched — is exactly the texts joined by single
spaces. -/
theorem transcript_space_join_amended (db : DB) (mid ts et : String) (dur : ℚ)
    (afile : Option String) (texts : List String)
    (hdb : DatabaseManager.transcript_of db mid = some "")
    (ht : ∀ t ∈ texts, t ≠ "" ∧ pyStrip t = t) :
    DatabaseManager.transcript_of
        (DatabaseManager.end_meeting (add_chunks db mid ts texts) mid et dur afile) mid
      = some (pyJoinSp texts) := by
  rw [transcript_of_end_meeting, transcript_of_add_chunks, hdb]
  cases texts with
  | nil => rfl
  | cons t ts' =>
      have hnes : ∀ x ∈ t :: ts', NoEdgeSpace x := fun x hx =>
        noEdgeSpace_of_stripped x (ht x hx).1 (ht x hx).2
      have hext : DatabaseManager.extendTranscript "" t = t := by
        simp [DatabaseManager.extendTranscript]
      have h := foldl_extend_join ts' t (hnes t (List.mem_cons_self t ts'))
        (fun x hx => hnes x (List.mem_cons_of_mem t hx))
      simp only [Option.map_some', List.foldl_cons, hext, h.1]

theorem transcript_space_join_amended_witness :
    (DatabaseManager.transcript_of
        ⟨[⟨"m", "T", "s", none, 0, "", "in_progress", none⟩], [], []⟩ "m" = some "" ∧
     (∀ t ∈ ["hello", "world"], t ≠ "" ∧ pyStrip t = t) ∧
     DatabaseManager.transcript_of
        (DatabaseManager.end_meeting
          (add_chunks ⟨[⟨"m", "T", "s", none, 0, "", "in_progress", none⟩], [], []⟩
            "m" "t0" ["hello", "world"]) "m" "e" 1 none) "m"
      = some (pyJoinSp ["hello", "world"])) :=
  ⟨by decide, by decide,
   transcript_space_join_amended
     ⟨[⟨"m", "T", "s", none, 0, "", "in_progress", none⟩], [], []⟩
     "m" "t0" "e" 1 none ["hello", "world"] (by decide) (by decide)⟩
